import Mathlib

/-!
Verification of the document ingestion / retrieval core of the
support-agent repository, as a shallow embedding in Lean 4.

The Python modules embedded here:
  app/utils/text_chunker.py        (chunking strategies)
  app/utils/rate_limiter.py        (sliding-window rate limiter)
  app/utils/embedding_pipeline.py  (batched + cached embedding generation)
  app/services/openai_service.py   (provider client with tenacity retry)
  app/services/document_storage.py (document/chunk storage gateway)
  app/services/search_service.py   (search orchestration)

Python strings are modelled as `List Char`, machine floats that are only
ever produced, stored and compared (similarity scores, embedding vector
components, timestamps) as `Int`, dictionaries as association lists, and
the fallible external services (OpenAI provider, Supabase store) as
explicit outcome parameters injected into the embedded functions.
-/

namespace SupportAgent

/-- Association-list lookup (first binding wins), modelling Python
`dict.get` / `key in dict` on insertion-ordered dictionaries. -/
def alookup {α β : Type} [DecidableEq α] : List (α × β) → α → Option β
  | [], _ => none
  | (k, v) :: rest, key => if k = key then some v else alookup rest key

/-- Association-list update-or-append, modelling Python `dict[key] = value`
(overwrites an existing binding in place, otherwise appends, preserving
insertion order). -/
def aset {α β : Type} [DecidableEq α] : List (α × β) → α → β → List (α × β)
  | [], key, v => [(key, v)]
  | (k, w) :: rest, key, v =>
      if k = key then (key, v) :: rest else (k, w) :: aset rest key v

/-! ## Rate limiter — app/utils/rate_limiter.py

`RateLimiter.check_rate_limit` (lines 38-68): prune the key's timestamps
to those with `current_time - ts < window_seconds`, admit and record the
request when fewer than `max_requests` remain, otherwise deny.
Timestamps (`time.time()` floats) are modelled as `Int`. -/

/-- State of a `RateLimiter`: `self.requests`, a dict from key to the list
of admitted request timestamps. -/
def RLState : Type := List (List Char × List Int)

/-- `RateLimiter.check_rate_limit(key)` evaluated at clock value `now`:
returns the admission decision and the updated `self.requests`. -/
def checkRateLimit (maxRequests : Nat) (windowSeconds : Int)
    (st : RLState) (key : List Char) (now : Int) : Bool × RLState :=
  let ts := (alookup st key).getD []
  let pruned := ts.filter (fun t => now - t < windowSeconds)
  if pruned.length < maxRequests then
    (true, aset st key (pruned ++ [now]))
  else
    (false, aset st key pruned)

/-- Run a sequence of `check_rate_limit` calls on one key at the given
clock values, collecting the decisions. -/
def runRateLimiter (maxRequests : Nat) (windowSeconds : Int)
    (key : List Char) : RLState → List Int → List Bool
  | _, [] => []
  | st, now :: rest =>
      let r := checkRateLimit maxRequests windowSeconds st key now
      r.1 :: runRateLimiter maxRequests windowSeconds key r.2 rest

/-! ## Text chunker — app/utils/text_chunker.py

Python `str` is modelled as `List Char`. `text.split(separator)` (nonempty
separator) is modelled by `splitOnSep`: scan left to right, break at each
leftmost non-overlapping occurrence of the separator. -/

/-- Python `text.split(sep)` for a nonempty `sep`: segments of `text`
between leftmost non-overlapping occurrences of `sep`, scanning left to
right. Fuel-based recursion (each step consumes at least one character,
so fuel `text.length + 1` always suffices for a nonempty separator). -/
def splitOnSepGo (sep : List Char) : Nat → List Char → List (List Char)
  | 0, text => [text]
  | fuel + 1, text =>
      match text with
      | [] => [[]]
      | c :: rest =>
          if sep ≠ [] ∧ sep.isPrefixOf (c :: rest) then
            [] :: splitOnSepGo sep fuel ((c :: rest).drop sep.length)
          else
            match splitOnSepGo sep fuel rest with
            | [] => [[c]]
            | s :: ss => (c :: s) :: ss

/-- Python `text.split(sep)` applied to a whole text. -/
def splitOnSep (sep text : List Char) : List (List Char) :=
  splitOnSepGo sep (text.length + 1) text

/-- `chunk_by_character` loop body (text_chunker.py lines 162-177): emit
`text[max(0, start-overlap) if start>0 else start : min(start+size, len)]`
and continue from the unadjusted end. The loop is modelled with fuel
`text.length + 1`, enough for every `chunk_size ≥ 1` (each step advances
`start` by at least one character); with `chunk_size = 0` the Python loop
does not terminate, which the model truncates. -/
def chunkByCharGo (text : List Char) (cs co : Nat) : Nat → Nat → List (List Char)
  | _, 0 => []
  | start, fuel + 1 =>
      if start < text.length then
        let e := min (start + cs) text.length
        let s := if 0 < start then start - co else start
        ((text.drop s).take (e - s)) :: chunkByCharGo text cs co e fuel
      else []

/-- `chunk_by_character(text, chunk_size, chunk_overlap)`
(text_chunker.py lines 143-179). -/
def chunkByCharacter (text : List Char) (cs co : Nat) : List (List Char) :=
  if text.length ≤ cs then [text]
  else chunkByCharGo text cs co 0 (text.length + 1)

/-- The backwards overlap-collection loop shared by `chunk_by_separator`
(lines 117-127) and `chunk_by_items` (lines 269-279): walk the reversed
current chunk, keeping items while the accumulated size (each item costing
`len(item) + len(sep)`) stays within `chunk_overlap`; stop at the first
item that does not fit. Returns the kept items in original order together
with their accumulated size. -/
def overlapGo (sep : List Char) (co : Nat) :
    List (List Char) → Nat → List (List Char) × Nat
  | [], osize => ([], osize)
  | item :: rest, osize =>
      let isize := item.length + sep.length
      if osize + isize ≤ co then
        let r := overlapGo sep co rest (osize + isize)
        (r.1 ++ [item], r.2)
      else ([], osize)

/-- The greedy packing loop of `chunk_by_separator` (lines 103-138):
state is (remaining splits, finished chunks, current chunk, current size);
each split costs `len(split) + len(separator)`; when adding a split would
exceed `chunk_size` and the current chunk is nonempty, the current chunk
is emitted and the overlap tail carried over. -/
def sepPackGo (cs co : Nat) (sep : List Char) :
    List (List Char) → List (List Char) → List (List Char) → Nat →
    List (List Char)
  | [], chunks, cur, _ =>
      if cur ≠ [] then chunks ++ [List.intercalate sep cur] else chunks
  | split :: rest, chunks, cur, csize =>
      let ssize := split.length + sep.length
      if csize + ssize > cs ∧ cur ≠ [] then
        let ov := overlapGo sep co cur.reverse 0
        sepPackGo cs co sep rest (chunks ++ [List.intercalate sep cur])
          (ov.1 ++ [split]) (ov.2 + ssize)
      else
        sepPackGo cs co sep rest chunks (cur ++ [split]) (csize + ssize)

/-- `chunk_by_separator(text, chunk_size, chunk_overlap, separator)`
(text_chunker.py lines 78-140): split on the separator; if the text
contains no separator at all (a single split), fall back to character
chunking of the whole text; otherwise greedily pack the splits. -/
def chunkBySeparator (text : List Char) (cs co : Nat) (sep : List Char) :
    List (List Char) :=
  let splits := splitOnSep sep text
  if splits.length = 1 then chunkByCharacter text cs co
  else sepPackGo cs co sep splits [] [] 0

/-- The greedy packing loop of `chunk_by_items` (lines 257-292); identical
to `sepPackGo` except that an item only pays for a joiner when the current
chunk is nonempty. -/
def itemsPackGo (cs co : Nat) (join : List Char) :
    List (List Char) → List (List Char) → List (List Char) → Nat →
    List (List Char)
  | [], chunks, cur, _ =>
      if cur ≠ [] then chunks ++ [List.intercalate join cur] else chunks
  | item :: rest, chunks, cur, csize =>
      let isize :=
        if cur ≠ [] then item.length + join.length else item.length
      if csize + isize > cs ∧ cur ≠ [] then
        let ov := overlapGo join co cur.reverse 0
        itemsPackGo cs co join rest (chunks ++ [List.intercalate join cur])
          (ov.1 ++ [item]) (ov.2 + isize)
      else
        itemsPackGo cs co join rest chunks (cur ++ [item]) (csize + isize)

/-- `chunk_by_items(items, chunk_size, chunk_overlap, join_str)`
(text_chunker.py lines 239-292). -/
def chunkByItems (items : List (List Char)) (cs co : Nat)
    (join : List Char) : List (List Char) :=
  itemsPackGo cs co join items [] [] 0

/-- Python `\s` (whitespace class) on the characters this code base
feeds it. -/
def pyWs (c : Char) : Bool :=
  c = ' ' ∨ c = '\t' ∨ c = '\n' ∨ c = '\r' ∨ c = '\x0b' ∨ c = '\x0c'

/-- A sentence-ending character for the regex `(?<=[.!?])\s+`. -/
def isSentEnd (c : Char) : Bool :=
  c = '.' ∨ c = '!' ∨ c = '?'

/-- `re.split(r"(?<=[.!?])\s+", text)` (text_chunker.py lines 199-200):
split at each maximal whitespace run that is immediately preceded by
`.`, `!` or `?`, dropping the whitespace; `prev` is the character before
the current scan position. -/
def sentSplitGo (prev : Char) : Nat → List Char → List (List Char)
  | 0, text => [text]
  | fuel + 1, text =>
      match text with
      | [] => [[]]
      | c :: rest =>
          if isSentEnd prev ∧ pyWs c then
            [] :: sentSplitGo ' ' fuel (rest.dropWhile pyWs)
          else
            match sentSplitGo c fuel rest with
            | [] => [[c]]
            | s :: ss => (c :: s) :: ss

/-- The sentence splitter applied to a whole text (no character precedes
position 0, so the lookbehind cannot match there; fuel
`text.length + 1` always suffices since each step consumes at least one
character). -/
def sentSplit (text : List Char) : List (List Char) :=
  sentSplitGo 'a' (text.length + 1) text

/-- `chunk_by_sentence(text, chunk_size, chunk_overlap)`
(text_chunker.py lines 182-202). -/
def chunkBySentence (text : List Char) (cs co : Nat) : List (List Char) :=
  chunkByItems (sentSplit text) cs co [' ']

/-- Prefix match of the markdown header regex `#{1,6}\s+[^\n]+\n`
(text_chunker.py line 222), by greedy token scanning: one to six `#`,
a nonempty whitespace run, a nonempty run of non-newline characters,
then a literal newline. Returns the matched header and the remainder. -/
def tryHeader (l : List Char) : Option (List Char × List Char) :=
  let hs := l.takeWhile (· = '#')
  if 1 ≤ hs.length ∧ hs.length ≤ 6 then
    let after := l.drop hs.length
    let ws := after.takeWhile pyWs
    if ws = [] then none
    else
      let rest := after.drop ws.length
      let content := rest.takeWhile (· ≠ '\n')
      if content = [] then none
      else
        match rest.drop content.length with
        | '\n' :: _ =>
            some (hs ++ ws ++ content ++ ['\n'],
              rest.drop (content.length + 1))
        | _ => none
  else none

/-- `re.split(r"(#{1,6}\s+[^\n]+\n)", text)` with its capturing group
(text_chunker.py line 223): non-matching stretches interleaved with the
captured header matches, scanning left to right. Modelled with fuel
`text.length + 1` (each step consumes at least one character). -/
def mdSplitGo : Nat → List Char → List (List Char)
  | 0, text => [text]
  | fuel + 1, text =>
      match text with
      | [] => [[]]
      | c :: rest =>
          match tryHeader (c :: rest) with
          | some (hdr, remainder) => [] :: hdr :: mdSplitGo fuel remainder
          | none =>
              match mdSplitGo fuel rest with
              | [] => [[c]]
              | s :: ss => (c :: s) :: ss

/-- The markdown section splitter applied to a whole text. -/
def mdSplit (text : List Char) : List (List Char) :=
  mdSplitGo (text.length + 1) text

/-- The header-grouping loop of `chunk_markdown` (text_chunker.py lines
226-234): a section that prefix-matches the header pattern is glued to
the following section. -/
def groupSections : List (List Char) → List (List Char)
  | [] => []
  | s :: rest =>
      if (tryHeader s).isSome ∧ rest ≠ [] then
        match rest with
        | t :: rest2 => (s ++ t) :: groupSections rest2
        | [] => [s]
      else s :: groupSections rest

/-- `chunk_markdown(text, chunk_size, chunk_overlap)`
(text_chunker.py lines 205-236). -/
def chunkMarkdown (text : List Char) (cs co : Nat) : List (List Char) :=
  chunkByItems (groupSections (mdSplit text)) cs co ['\n']

/-- `chunk_text(text, chunk_size, chunk_overlap, strategy, content_type)`
(text_chunker.py lines 29-75): empty text gives an empty list; the
`simple` strategy is redirected by content type (`markdown`/`md` to
markdown, `html` to paragraph); then dispatch on the strategy name, with
`semantic` and unknown names falling back to the simple separator.
No validation of `chunk_size`/`chunk_overlap` is performed anywhere in
the source. -/
def chunkText (text : List Char) (cs co : Nat)
    (strategy contentType : String) : List (List Char) :=
  if text = [] then []
  else
    let strat :=
      if strategy = "simple" then
        if contentType = "markdown" ∨ contentType = "md" then "markdown"
        else if contentType = "html" then "paragraph"
        else "simple"
      else strategy
    if strat = "simple" then chunkBySeparator text cs co ['\n']
    else if strat = "sentence" then chunkBySentence text cs co
    else if strat = "paragraph" then chunkBySeparator text cs co ['\n', '\n']
    else if strat = "markdown" then chunkMarkdown text cs co
    else if strat = "semantic" then chunkBySeparator text cs co ['\n']
    else chunkBySeparator text cs co ['\n']

/-! ## Embedding pipeline — app/utils/embedding_pipeline.py

`generate_embeddings` (lines 79-155). The provider (`get_embeddings`) is
modelled as an oracle `emb : String → List Int` returning one vector per
input text in input order (the provider boundary contract), and the
module-global `_embedding_cache` / `_cache_hits` / `_cache_misses`
together with a log of the provider batch calls form the explicit state.
`_get_cache_key` returns the md5 hex digest of the UTF-8 encoded text;
the model identifies each text with its digest (md5 treated as
collision-free on the texts in play), so the cache key is the text
itself. -/

/-- `_get_cache_key(text)` (embedding_pipeline.py lines 209-211),
with the md5 hex digest modelled as the text itself. -/
def cacheKey (text : String) : String := text

/-- Global state of the embedding pipeline module: the embedding cache,
the hit/miss counters, and (for observing provider traffic) the list of
batches sent to the provider. -/
structure EmbState where
  cache : List (String × List Int)
  hits : Nat
  misses : Nat
  calls : List (List String)
deriving DecidableEq

/-- The fresh state after `clear_embedding_cache()`. -/
def emptyEmbState : EmbState := ⟨[], 0, 0, []⟩

/-- The cache-check loop (embedding_pipeline.py lines 105-114): for each
text, a hit appends its cached vector to `all_embeddings`, a miss records
the text and its index. Returns
(cached vectors, uncached texts, uncached indices, hits, misses). -/
def cachePass (cache : List (String × List Int)) :
    List String → Nat →
    List (List Int) × List String × List Nat × Nat × Nat
  | [], _ => ([], [], [], 0, 0)
  | t :: rest, i =>
      let r := cachePass cache rest (i + 1)
      match alookup cache (cacheKey t) with
      | some v => (v :: r.1, r.2.1, r.2.2.1, r.2.2.2.1 + 1, r.2.2.2.2)
      | none => (r.1, t :: r.2.1, i :: r.2.2.1, r.2.2.2.1, r.2.2.2.2 + 1)

/-- The per-batch result loop (embedding_pipeline.py lines 131-138):
`for j, embedding in enumerate(batch_embeddings)`, store the embedding
under `batch_indices[j]` and — the faithful rendering of line 137 —
cache it under the key of `uncached_texts[j]`, where `j` is the
batch-local counter indexing into the whole uncached list. -/
def storeBatch (useCache : Bool) (uts : List String) :
    List Nat → List (List Int) → Nat → List (Nat × List Int) →
    List (String × List Int) →
    List (Nat × List Int) × List (String × List Int)
  | _, [], _, ebi, cache => (ebi, cache)
  | [], _ :: _, _, ebi, cache => (ebi, cache)
  | bi :: birest, e :: erest, j, ebi, cache =>
      let ebi2 := aset ebi bi e
      let cache2 :=
        if useCache then aset cache (cacheKey (uts.getD j "")) e else cache
      storeBatch useCache uts birest erest (j + 1) ebi2 cache2

/-- The batch loop (embedding_pipeline.py lines 123-142):
`for i in range(0, len(uncached_texts), batch_size)`, call the provider
on `uncached_texts[i:i+batch_size]` and store the results. Fuel-based
recursion (`uts.length + 1` steps always suffice for `batch_size ≥ 1`;
`range` with step 0 raises in Python). -/
def batchesGo (emb : String → List Int) (bs : Nat) (useCache : Bool)
    (uts : List String) (uidx : List Nat) :
    Nat → Nat → List (Nat × List Int) → List (String × List Int) →
    List (List String) →
    List (Nat × List Int) × List (String × List Int) × List (List String)
  | _, 0, ebi, cache, calls => (ebi, cache, calls)
  | i, fuel + 1, ebi, cache, calls =>
      if i < uts.length then
        let batch := (uts.drop i).take bs
        let bidx := (uidx.drop i).take bs
        let bembs := batch.map emb
        let r := storeBatch useCache uts bidx bembs 0 ebi cache
        batchesGo emb bs useCache uts uidx (i + bs) fuel r.1 r.2
          (calls ++ [batch])
      else (ebi, cache, calls)

/-- `generate_embeddings(texts, batch_size, use_cache)`
(embedding_pipeline.py lines 79-155): consult the cache, embed the
uncached texts in provider batches, then build the result list — with
the cache on, the vectors of cache hits (appended during the cache pass)
come first and the freshly computed vectors are appended after them in
index order (lines 145-149); with the cache off, the fresh vectors are
returned in index order (line 152). -/
def generateEmbeddings (emb : String → List Int) (texts : List String)
    (bs : Nat) (useCache : Bool) (st : EmbState) :
    List (List Int) × EmbState :=
  if texts = [] then ([], st)
  else
    let cp :=
      if useCache then cachePass st.cache texts 0
      else ([], texts, List.range texts.length, 0, 0)
    let cachedVecs := cp.1
    let uts := cp.2.1
    let uidx := cp.2.2.1
    let hits := cp.2.2.2.1
    let misses := cp.2.2.2.2
    if uts ≠ [] then
      let r := batchesGo emb bs useCache uts uidx 0 (uts.length + 1) []
        st.cache st.calls
      let ebi := r.1
      let cache2 := r.2.1
      let calls2 := r.2.2
      let result :=
        if useCache then
          cachedVecs ++
            (List.range texts.length).filterMap (fun i => alookup ebi i)
        else
          (List.range texts.length).map (fun i => (alookup ebi i).getD [])
      (result, ⟨cache2, st.hits + hits, st.misses + misses, calls2⟩)
    else
      (cachedVecs, ⟨st.cache, st.hits + hits, st.misses + misses, st.calls⟩)

/-- How many times a given text was sent to the provider across the
logged batch calls. -/
def providerCallsFor (t : String) (calls : List (List String)) : Nat :=
  (calls.map (fun b => b.count t)).sum

/-- A concrete embedding oracle for evaluation: a text of length n maps
to the one-component vector [n]. -/
def embLen (t : String) : List Int := [(t.length : Int)]

/-! ## Provider client — app/services/openai_service.py

`get_embeddings` (lines 52-108) and its tenacity `@retry` decorator:
`retry_if_exception_type((openai.RateLimitError, openai.APITimeoutError))`
with `stop_after_attempt(5)`. Inside the function body every
`openai.OpenAIError` — a superclass of both retryable exception types —
is caught and re-raised as `OpenAIServiceError` (lines 106-108). The
per-attempt provider outcome is injected as a function of the attempt
number; the local rate limiter's admission decision as a boolean. -/

/-- Errors the OpenAI SDK can raise at the provider call (all subclasses
of `openai.OpenAIError`): transient (rate limit, timeout) and fatal
(authentication, malformed request). -/
inductive ProviderError
  | rateLimit
  | timeout
  | authError
  | invalidRequest
deriving DecidableEq

/-- Exceptions that can escape one execution of the `get_embeddings`
body: the raw SDK exceptions (which in fact never escape, because of the
blanket `except openai.OpenAIError`), the service's wrapper
`OpenAIServiceError`, and `RateLimitExceededError` from the local
limiter. -/
inductive PyError
  | openaiRaw (e : ProviderError)
  | openAIServiceError (wrapped : ProviderError)
  | rateLimitExceededError
deriving DecidableEq

/-- The tenacity predicate
`retry_if_exception_type((openai.RateLimitError, openai.APITimeoutError))`:
only the raw SDK rate-limit/timeout exceptions are retryable. -/
def isTenacityRetryable : PyError → Bool
  | .openaiRaw .rateLimit => true
  | .openaiRaw .timeout => true
  | _ => false

/-- One execution of the `get_embeddings` function body (lines 75-108):
fail fast with `RateLimitExceededError` when the local limiter denies
(not an `openai.OpenAIError`, so it escapes the `except` clause), and
wrap any SDK error from the provider call into `OpenAIServiceError`. -/
def getEmbeddingsBody (limiterAllows : Bool)
    (outcome : Except ProviderError (List (List Int))) :
    Except PyError (List (List Int)) :=
  if limiterAllows then
    match outcome with
    | .ok vs => .ok vs
    | .error e => .error (.openAIServiceError e)
  else .error .rateLimitExceededError

/-- The tenacity retry loop with `stop_after_attempt(maxAttempts)`:
run the body; on an exception satisfying the retry predicate, retry
until the attempt cap, otherwise re-raise. Returns the final outcome and
the number of attempts executed. -/
def tenacityRun (maxAttempts : Nat)
    (body : Nat → Except PyError (List (List Int))) :
    Nat → Nat → Except PyError (List (List Int)) × Nat
  | attempt, 0 => (body attempt, attempt)
  | attempt, fuel + 1 =>
      match body attempt with
      | .ok vs => (.ok vs, attempt)
      | .error e =>
          if isTenacityRetryable e ∧ attempt < maxAttempts then
            tenacityRun maxAttempts body (attempt + 1) fuel
          else (.error e, attempt)

/-- `get_embeddings` with its `@retry` decorator: at most 5 attempts,
attempt k seeing provider outcome `outcomes k`. Returns the final result
and the number of attempts that actually ran. -/
def getEmbeddingsRetried (limiterAllows : Bool)
    (outcomes : Nat → Except ProviderError (List (List Int))) :
    Except PyError (List (List Int)) × Nat :=
  tenacityRun 5 (fun k => getEmbeddingsBody limiterAllows (outcomes k)) 1 5

/-! ## Storage gateway — app/services/document_storage.py

The Supabase store is modelled as an explicit in-memory state `DB`
(documents table and document_chunks table) threaded through every
operation, with a `Backend` record of injected success/failure outcomes
for the individual backend statements (the model of Supabase responses
carrying an `error`). A raised `DocumentStorageError` is an
`Except.error` carrying its message. Generated `uuid4` identifiers are
opaque to every property considered here and are modelled by
deterministic fresh names. -/

/-- A row of the `documents` table. -/
structure Doc where
  id : String
  title : String
  content : String
  metadata : List (String × String)
  version : Nat
deriving DecidableEq

/-- A row of the `document_chunks` table. -/
structure ChunkRec where
  id : String
  document_id : String
  chunk_index : Nat
  content : String
  embedding : List Int
  metadata : List (String × String)
deriving DecidableEq

/-- The two tables of the store. -/
structure DB where
  docs : List Doc
  chunks : List ChunkRec
deriving DecidableEq

/-- Injected outcomes of the individual backend statements: whether each
kind of statement succeeds or comes back with an error. -/
structure Backend where
  docInsertOk : Bool
  chunkInsertOk : Bool
  docDeleteOk : Bool
  chunkDeleteOk : Bool
  docUpdateOk : Bool

/-- `get_document(doc_id)` (document_storage.py lines 156-178): first row
with the id, `None` when absent (errors are swallowed into `None`). -/
def getDocument (db : DB) (docId : String) : Option Doc :=
  db.docs.find? (fun d => d.id = docId)

/-- `store_document(title, content, metadata, doc_id)` (lines 33-84):
insert one row with `version = 1`; a backend error (including a primary
key conflict on an already existing id) is wrapped in
`DocumentStorageError`. -/
def storeDocument (b : Backend) (db : DB) (title content : String)
    (metadata : List (String × String)) (docId : String) :
    Except String Doc × DB :=
  if b.docInsertOk ∧ (getDocument db docId).isNone then
    let doc : Doc := ⟨docId, title, content, metadata, 1⟩
    (.ok doc, ⟨db.docs ++ [doc], db.chunks⟩)
  else (.error "Failed to store document", db)

/-- Split a list into consecutive batches of size `n` (the
`range(0, len, BATCH_SIZE)` slicing of lines 263-264); fuel-based, with
`l.length + 1` steps always sufficient for `n ≥ 1`. -/
def toBatchesGo {α : Type} (n : Nat) : Nat → List α → List (List α)
  | _, [] => []
  | 0, l => [l]
  | fuel + 1, l => l.take n :: toBatchesGo n fuel (l.drop n)

/-- All consecutive batches of size `n` of a list. -/
def toBatches {α : Type} (n : Nat) (l : List α) : List (List α) :=
  toBatchesGo n (l.length + 1) l

/-- The batch-insert loop of `store_document_chunks` (lines 262-272):
insert batch after batch, extending `stored_chunks`; the first failing
batch raises, leaving the rows of the earlier batches in place. -/
def insertChunkBatches (b : Backend) :
    DB → List (List ChunkRec) → List ChunkRec →
    Except String (List ChunkRec) × DB
  | db, [], stored => (.ok stored, db)
  | db, batch :: rest, stored =>
      if b.chunkInsertOk then
        insertChunkBatches b ⟨db.docs, db.chunks ++ batch⟩ rest
          (stored ++ batch)
      else (.error "Error storing document chunks", db)

/-- The chunk records assembled in lines 248-259 (one per chunk, indexed
in order, with `uuid4` modelled by a deterministic fresh name). Python's
`metadata_list[i] if metadata_list else {}` tests truthiness, so an
empty metadata list behaves like `None`. -/
def buildChunkRecords (documentId : String) (chunks : List String)
    (embeddings : List (List Int)) (mlTruthy : Bool)
    (ml : List (List (String × String))) : List ChunkRec :=
  (List.range chunks.length).map (fun i =>
    ⟨"chunk-" ++ toString i, documentId, i, chunks.getD i "",
      embeddings.getD i [], if mlTruthy then ml.getD i [] else []⟩)

/-- Python truthiness of the `metadata_list` argument: not `None` and
nonempty. -/
def mlIsTruthy (metadataList : Option (List (List (String × String)))) :
    Bool :=
  match metadataList with
  | some (_ :: _) => true
  | _ => false

/-- `store_document_chunks(document_id, chunks, embeddings,
metadata_list)` (lines 214-278): validate the list lengths, build the
records, insert them in batches of `BATCH_SIZE = 100`. -/
def storeDocumentChunks (b : Backend) (db : DB) (documentId : String)
    (chunks : List String) (embeddings : List (List Int))
    (metadataList : Option (List (List (String × String)))) :
    Except String (List ChunkRec) × DB :=
  if chunks.length ≠ embeddings.length then
    (.error "Number of chunks does not match number of embeddings", db)
  else
    let ml := metadataList.getD []
    if mlIsTruthy metadataList ∧ chunks.length ≠ ml.length then
      (.error "Number of chunks does not match number of metadata items", db)
    else
      let records := buildChunkRecords documentId chunks embeddings
        (mlIsTruthy metadataList) ml
      insertChunkBatches b db (toBatches 100 records) []

/-- `delete_document_chunks(document_id)` (lines 307-332): delete every
chunk row of the document; a backend error is swallowed into `False`
with the rows untouched. -/
def deleteDocumentChunks (b : Backend) (db : DB) (documentId : String) :
    Bool × DB :=
  if b.chunkDeleteOk then
    (true, ⟨db.docs, db.chunks.filter (fun c => c.document_id ≠ documentId)⟩)
  else (false, db)

/-- `delete_document(doc_id, delete_chunks)` (lines 180-212): optionally
delete the chunks first, then the document row; returns whether a
document row was actually deleted, with every error swallowed into
`False`. -/
def deleteDocument (b : Backend) (db : DB) (docId : String)
    (deleteChunks : Bool) : Bool × DB :=
  let db1 := if deleteChunks then (deleteDocumentChunks b db docId).2 else db
  if b.docDeleteOk then
    let found := db1.docs.filter (fun d => d.id = docId)
    (found.length > 0, ⟨db1.docs.filter (fun d => d.id ≠ docId), db1.chunks⟩)
  else (false, db1)

/-- `store_document_with_chunks(...)` (lines 334-389): insert the
document, then the chunks; when the chunk step raises, delete the
just-inserted document (keeping its — not yet existing — chunks) and
re-raise, the outer handler wrapping the message. -/
def storeDocumentWithChunks (b : Backend) (db : DB)
    (title content : String) (chunks : List String)
    (embeddings : List (List Int)) (metadata : List (String × String))
    (chunkMetadataList : Option (List (List (String × String))))
    (docId : String) : Except String (Doc × List ChunkRec) × DB :=
  match storeDocument b db title content metadata docId with
  | (.error e, db1) =>
      (.error ("Failed to store document with chunks: " ++ e), db1)
  | (.ok doc, db1) =>
      match storeDocumentChunks b db1 doc.id chunks embeddings
        chunkMetadataList with
      | (.ok recs, db2) => (.ok (doc, recs), db2)
      | (.error ce, db2) =>
          let d := deleteDocument b db2 doc.id false
          (.error ("Failed to store document with chunks: " ++ ce), d.2)

/-- Python `{**existing, **new}` on string-keyed dicts: existing keys in
order with values overridden by `new`, then the genuinely new keys in
their order. -/
def mergeMeta (old new : List (String × String)) :
    List (String × String) :=
  (old.map (fun p => (p.1, (alookup new p.1).getD p.2))) ++
    new.filter (fun p => (alookup old p.1).isNone)

/-- `update_document(doc_id, title, content, metadata)` (lines 86-154):
look up the document (`DocumentStorageError` when absent), build
`update_data` from the provided fields — merging metadata into the
existing metadata when the latter is truthy — and always including
`version = existing + 1`, so `update_data` is never empty and the
backend update statement always runs. The returned triple also reports
whether that update statement was executed. -/
def updateDocument (b : Backend) (db : DB) (docId : String)
    (title content : Option String)
    (metadata : Option (List (String × String))) :
    Except String Doc × DB × Bool :=
  match getDocument db docId with
  | none => (.error "Failed to update document: not found", db, false)
  | some existing =>
      let newTitle := title.getD existing.title
      let newContent := content.getD existing.content
      let newMetadata :=
        match metadata with
        | none => existing.metadata
        | some m =>
            if existing.metadata ≠ [] then mergeMeta existing.metadata m
            else m
      let updated : Doc :=
        ⟨existing.id, newTitle, newContent, newMetadata,
          existing.version + 1⟩
      if b.docUpdateOk then
        (.ok updated,
          ⟨db.docs.map (fun d => if d.id = docId then updated else d),
            db.chunks⟩, true)
      else (.error "Failed to update document", db, false)

/-! ## Search service — app/services/search_service.py

`SearchService.search` (lines 32-87) with its helpers
`_filter_by_metadata` (89-119), `_add_context` (121-195,
`CONTEXT_WINDOW_SIZE = 1`) and `_enhance_results` (197-231), together
with the storage gateway's `search_documents`
(document_storage.py lines 449-490). The result rows are Python dicts;
they are modelled as records with `Option` fields for the keys that may
be absent. The two network dependencies — `create_embedding` (which
re-raises provider errors) and the `match_document_chunks` RPC — and the
chunk/document reads used for context and enrichment are injected
through a `SearchBackend`. -/

/-- A search-result row (a chunk match dict, possibly tagged as context
and possibly enriched with its parent document's title/metadata). -/
structure SResult where
  id : String
  document_id : String
  chunk_index : Option Nat
  content : String
  similarity : Option Int
  metadata : List (String × String)
  is_context : Bool
  context_for : Option Nat
  context_position : Option String
  document_title : Option String
  document_metadata : Option (List (String × String))
deriving DecidableEq

/-- Injected outcomes of the search service's external calls. -/
structure SearchBackend where
  embedQuery : Except String (List Int)
  rpcResult : Except String (List SResult)
  docChunks : String → List SResult
  getDoc : String → Option Doc

/-- Python `limit or DEFAULT`: `None` and `0` are falsy. -/
def pyOrNat (v : Option Nat) (dflt : Nat) : Nat :=
  match v with
  | none => dflt
  | some 0 => dflt
  | some n => n

/-- `DocumentStorage.search_documents` (document_storage.py lines
449-490): return the rows of the `match_document_chunks` RPC, with any
backend error logged and swallowed into an empty list. -/
def searchDocumentsGW (b : SearchBackend) : List SResult :=
  match b.rpcResult with
  | .ok rs => rs
  | .error _ => []

/-- The per-result check of `_filter_by_metadata` (lines 106-117): every
filter key must be present in the result's metadata with exactly the
filter's value. -/
def matchesFilter (metadata : List (String × String))
    (mf : List (String × String)) : Bool :=
  mf.all (fun kv =>
    match alookup metadata kv.1 with
    | some v => v = kv.2
    | none => false)

/-- `_filter_by_metadata(results, metadata_filter)` (lines 89-119). -/
def filterByMetadata (results : List SResult)
    (mf : List (String × String)) : List SResult :=
  results.filter (fun r => matchesFilter r.metadata mf)

/-- The grouping loop of `_add_context` (lines 140-151): an
insertion-ordered dict from document id to an insertion-ordered dict
from chunk index to result, skipping rows with a falsy `document_id` or
a missing `chunk_index`. -/
def groupByDoc :
    List SResult → List (String × List (Nat × SResult)) →
    List (String × List (Nat × SResult))
  | [], acc => acc
  | r :: rest, acc =>
      if r.document_id = "" ∨ r.chunk_index = none then
        groupByDoc rest acc
      else
        let ci := r.chunk_index.getD 0
        let inner := (alookup acc r.document_id).getD []
        groupByDoc rest (aset acc r.document_id (aset inner ci r))

/-- The tagging of a neighbouring chunk added as context
(lines 173-175 and 183-185). -/
def tagContext (c : SResult) (forIdx : Nat) (pos : String) : SResult :=
  { c with
    is_context := true
    context_for := some forIdx
    context_position := some pos }

/-- The per-primary-result context collection of `_add_context`
(lines 164-186) with `CONTEXT_WINDOW_SIZE = 1`: the result itself, then
the chunk at `chunk_index - 1` and the one at `chunk_index + 1` when
present in the document and not primary results themselves. Python's
`prev_index = chunk_index - 1` is `-1` (never a key) when
`chunk_index = 0`; under Nat truncation `ci - 1 = ci` exactly in that
case, so the extra `ci - 1 ≠ ci` conjunct reproduces the Python
behaviour. -/
def contextFor (chunkMap : List (Nat × SResult))
    (chunksMap : List (Nat × SResult)) (p : Nat × SResult) :
    List SResult :=
  let ci := p.1
  let withPrev :=
    match alookup chunkMap (ci - 1) with
    | some pc =>
        if (alookup chunksMap (ci - 1)).isNone ∧ ci - 1 ≠ ci then
          [tagContext pc ci "before"]
        else []
    | none => []
  let withNext :=
    match alookup chunkMap (ci + 1) with
    | some nc =>
        if (alookup chunksMap (ci + 1)).isNone then
          [tagContext nc ci "after"]
        else []
    | none => []
  p.2 :: (withPrev ++ withNext)

/-- Stable insertion (after all earlier elements with a key at least as
large), building Python's stable descending sort (line 189-192). -/
def insertDesc (key : SResult → Int) (x : SResult) :
    List SResult → List SResult
  | [] => [x]
  | y :: ys => if key x > key y then x :: y :: ys else y :: insertDesc key x ys

/-- Python `sort(key=..., reverse=True)`: stable descending sort. -/
def sortDescStable (key : SResult → Int) (l : List SResult) :
    List SResult :=
  l.foldl (fun acc x => insertDesc key x acc) []

/-- The sort key of line 190: similarity for primary results, 0 for
context chunks. -/
def contextSortKey (r : SResult) : Int :=
  if r.is_context then 0 else r.similarity.getD 0

/-- `_add_context(results, limit)` (lines 121-195): group the primary
results by document, pull each document's chunks, append the untagged
primaries and their tagged neighbours, sort stably by the context sort
key descending, and truncate to `limit`. -/
def addContext (b : SearchBackend) (results : List SResult)
    (limit : Nat) : List SResult :=
  if results = [] then []
  else
    let grouped := groupByDoc results []
    let contextResults := grouped.flatMap (fun g =>
      let docChunks := b.docChunks g.1
      let chunkMap := docChunks.foldl
        (fun m c => aset m (c.chunk_index.getD 0) c) []
      g.2.flatMap (contextFor chunkMap g.2))
    (sortDescStable contextSortKey contextResults).take limit

/-- The per-result enrichment of `_enhance_results` (lines 220-229):
attach the parent document's title and metadata when the document was
found. -/
def enhanceOne (b : SearchBackend) (r : SResult) : SResult :=
  match b.getDoc r.document_id with
  | some doc =>
      { r with
        document_title := some doc.title
        document_metadata := some doc.metadata }
  | none => r

/-- `_enhance_results(results)` (lines 197-231). -/
def enhanceResults (b : SearchBackend) (results : List SResult) :
    List SResult :=
  results.map (enhanceOne b)

/-- `SearchService.search(query, limit, similarity_threshold,
include_context, metadata_filter)` (lines 32-87): embed the query, run
the similarity search, filter by metadata when a truthy filter is given,
expand context or truncate, and enrich — with the whole body inside a
`try` whose handler logs the error and returns `[]`, and with
`search_documents` itself already swallowing backend errors into `[]`.
The `query` and threshold influence only the injected outcomes. -/
def searchService (b : SearchBackend) (query : String)
    (limit : Option Nat) (includeContext : Bool)
    (mdFilter : Option (List (String × String))) : List SResult :=
  match b.embedQuery with
  | .error _ => []
  | .ok _ =>
      let lim := pyOrNat limit 5
      let results := searchDocumentsGW b
      let results :=
        match mdFilter with
        | some mf =>
            if mf ≠ [] ∧ results ≠ [] then filterByMetadata results mf
            else results
        | none => results
      let results :=
        if includeContext ∧ results ≠ [] then addContext b results lim
        else results.take lim
      enhanceResults b results

/-! ### Concrete search fixtures for evaluation -/

/-- A primary match: chunk 1 of document "d", tagged `category=manual`,
similarity 80. -/
def manualHit : SResult :=
  ⟨"c1", "d", some 1, "manual text", some 80, [("category", "manual")],
    false, none, none, none, none⟩

/-- Chunk 0 of document "d", tagged `category=faq`. -/
def faqChunk : SResult :=
  ⟨"c0", "d", some 0, "faq text", none, [("category", "faq")],
    false, none, none, none, none⟩

/-- Chunk 2 of document "d", tagged `category=manual`. -/
def manualChunk2 : SResult :=
  ⟨"c2", "d", some 2, "more manual", none, [("category", "manual")],
    false, none, none, none, none⟩

/-- Chunk 1 of document "d" as returned by `get_document_chunks`
(no similarity column). -/
def chunkRow1 : SResult :=
  ⟨"c1", "d", some 1, "manual text", none, [("category", "manual")],
    false, none, none, none, none⟩

/-- Document "d". -/
def sampleDoc : Doc :=
  ⟨"d", "The Manual", "content", [("category", "manual")], 1⟩

/-- A backend whose query embedding fails while matches exist. -/
def sbEmbedFail : SearchBackend :=
  ⟨.error "embedding failed", .ok [manualHit], fun _ => [], fun _ => none⟩

/-- A backend whose similarity-search RPC fails. -/
def sbRpcFail : SearchBackend :=
  ⟨.ok [1], .error "search failed", fun _ => [], fun _ => none⟩

/-- A healthy backend over document "d" whose chunk 0 is tagged `faq`
while chunks 1 and 2 are tagged `manual`; the similarity search matches
chunk 1. -/
def sb9 : SearchBackend :=
  ⟨.ok [1], .ok [manualHit],
    fun i => if i = "d" then [faqChunk, chunkRow1, manualChunk2] else [],
    fun i => if i = "d" then some sampleDoc else none⟩

/-! ## Theorems -/

/-- Claim C8: with `max_requests = 3` and `window_seconds = 60`, four
`check_rate_limit` calls on one key within the window return
true, true, true, false in that order, and a further call made once the
window has elapsed since the first admitted request returns true again. -/
theorem C8_rate_limiter_boundary (key : List Char) (t0 t1 t2 t3 t4 : Int)
    (h01 : t0 ≤ t1) (h12 : t1 ≤ t2) (h23 : t2 ≤ t3)
    (hin : t3 - t0 < 60) (h34 : t3 ≤ t4) (hout : 60 ≤ t4 - t0) :
    runRateLimiter 3 60 key [] [t0, t1, t2, t3, t4] =
      [true, true, true, false, true] := by
  have ha : t0 - t0 < 60 := by omega
  have hb : t1 - t0 < 60 := by omega
  have hc : t1 - t1 < 60 := by omega
  have hd : t2 - t0 < 60 := by omega
  have he : t2 - t1 < 60 := by omega
  have hf : t2 - t2 < 60 := by omega
  have hh : t3 - t1 < 60 := by omega
  have hi : t3 - t2 < 60 := by omega
  have hj : ¬ (t4 - t0 < 60) := by omega
  have s1 : checkRateLimit 3 60 [] key t0 = (true, [(key, [t0])]) := by
    simp [checkRateLimit, alookup, aset]
  have s2 : checkRateLimit 3 60 [(key, [t0])] key t1 =
      (true, [(key, [t0, t1])]) := by
    simp [checkRateLimit, alookup, aset, hb]
  have s3 : checkRateLimit 3 60 [(key, [t0, t1])] key t2 =
      (true, [(key, [t0, t1, t2])]) := by
    simp [checkRateLimit, alookup, aset, hd, he]
  have s4 : checkRateLimit 3 60 [(key, [t0, t1, t2])] key t3 =
      (false, [(key, [t0, t1, t2])]) := by
    simp [checkRateLimit, alookup, aset, hin, hh, hi]
  have s5 : (checkRateLimit 3 60 [(key, [t0, t1, t2])] key t4).1 = true := by
    have hlen := List.length_filter_le
      (fun t => decide (t4 - t < 60)) [t1, t2]
    simp only [List.length_cons, List.length_nil] at hlen
    simp [checkRateLimit, alookup, hj]
    rw [if_pos (by omega)]
  simp [runRateLimiter, s1, s2, s3, s4, s5]

/-- Claim C1: `generate_embeddings` is claimed to return the i-th input's
vector in position i even when cache hits and provider results are mixed.
It does not: with the cache holding "bb" (vector [2]) and the input
["a", "bb"], the returned list is [[2], [1]] — the cached vector first,
then the fresh vector of "a" — while the in-order result would be
[[1], [2]]. The merge at lines 145-149 appends fresh vectors after the
cached ones instead of interleaving by input index. -/
theorem C1_order_lost_when_cache_mixed :
    (generateEmbeddings embLen ["a", "bb"] 20 true
        ⟨[("bb", [2])], 0, 0, []⟩).1 = [[2], [1]] ∧
    ["a", "bb"].map embLen = [[1], [2]] := by decide

/-- Claim C3: embedding the same text twice is claimed to issue one
provider call per text because every new vector is cached under its own
text's hash. With `batch_size = 1` and inputs ["a", "bb"], the write at
line 137 keys the cache by `uncached_texts[j]` with the batch-local `j`,
so the second batch stores the vector of "bb" under the key of "a":
afterwards the cache maps "a" to [2] (the vector of "bb"!), "bb" is
absent, and a following call for ["bb"] reaches the provider again —
two provider calls for "bb" in total. -/
theorem C3_cache_key_uses_wrong_index :
    ((generateEmbeddings embLen ["a", "bb"] 1 true emptyEmbState).2.cache
        = [("a", [2])]) ∧
    (providerCallsFor "bb"
        (generateEmbeddings embLen ["bb"] 20 true
          (generateEmbeddings embLen ["a", "bb"] 1 true
            emptyEmbState).2).2.calls = 2) := by decide

/-- Claim C4: transient provider errors are claimed to be retried with
backoff up to 5 attempts. They are not: the blanket
`except openai.OpenAIError` (lines 106-108) catches the retryable
`RateLimitError`/`APITimeoutError` and re-raises them as
`OpenAIServiceError`, which the tenacity predicate does not retry — so a
rate-limited first attempt surfaces the wrapped error after exactly one
attempt even though the second attempt would have succeeded. (The
non-transient half of the claim is accurate: an authentication error
also propagates, wrapped, after a single attempt.) -/
theorem C4_retry_decorator_is_dead :
    (getEmbeddingsRetried true
        (fun k => if k = 1 then .error .rateLimit else .ok [[7]]) =
      (.error (.openAIServiceError .rateLimit), 1)) ∧
    (getEmbeddingsRetried true (fun _ => .error .authError) =
      (.error (.openAIServiceError .authError), 1)) := ⟨rfl, rfl⟩

theorem splitOnSepGo_ne_nil (sep : List Char) (fuel : Nat)
    (text : List Char) : splitOnSepGo sep fuel text ≠ [] := by
  cases fuel with
  | zero => simp [splitOnSepGo]
  | succ n =>
      cases text with
      | nil => simp [splitOnSepGo]
      | cons c rest =>
          rw [splitOnSepGo]
          split
          · simp
          · split <;> simp

theorem splitOnSep_ne_nil (sep text : List Char) :
    splitOnSep sep text ≠ [] :=
  splitOnSepGo_ne_nil sep (text.length + 1) text

theorem chunkByCharacter_ne_nil (text : List Char) (cs co : Nat) :
    chunkByCharacter text cs co ≠ [] := by
  rw [chunkByCharacter]
  split
  · simp
  · rename_i hlen
    rw [chunkByCharGo]
    have hpos : 0 < text.length := by omega
    simp [hpos]

theorem sepPackGo_ne_nil (cs co : Nat) (sep : List Char)
    (splits chunks cur : List (List Char)) (csize : Nat)
    (h : chunks ≠ [] ∨ cur ≠ [] ∨ splits ≠ []) :
    sepPackGo cs co sep splits chunks cur csize ≠ [] := by
  induction splits generalizing chunks cur csize with
  | nil =>
      rw [sepPackGo]
      split
      · simp
      · rename_i hcur
        rcases h with h | h | h
        · exact h
        · exact absurd h hcur
        · exact absurd rfl h
  | cons split rest ih =>
      rw [sepPackGo]
      split
      · exact ih _ _ _ (Or.inr (Or.inl (by simp)))
      · exact ih _ _ _ (Or.inr (Or.inl (by simp)))

theorem itemsPackGo_ne_nil (cs co : Nat) (join : List Char)
    (items chunks cur : List (List Char)) (csize : Nat)
    (h : chunks ≠ [] ∨ cur ≠ [] ∨ items ≠ []) :
    itemsPackGo cs co join items chunks cur csize ≠ [] := by
  induction items generalizing chunks cur csize with
  | nil =>
      rw [itemsPackGo]
      split
      · simp
      · rename_i hcur
        rcases h with h | h | h
        · exact h
        · exact absurd h hcur
        · exact absurd rfl h
  | cons item rest ih =>
      simp only [itemsPackGo]
      split <;> split <;> exact ih _ _ _ (Or.inr (Or.inl (by simp)))

theorem chunkBySeparator_ne_nil (text : List Char) (cs co : Nat)
    (sep : List Char) : chunkBySeparator text cs co sep ≠ [] := by
  rw [chunkBySeparator]
  split
  · exact chunkByCharacter_ne_nil text cs co
  · exact sepPackGo_ne_nil _ _ _ _ _ _ _
      (Or.inr (Or.inr (splitOnSep_ne_nil sep text)))

theorem sentSplitGo_ne_nil (prev : Char) (fuel : Nat) (text : List Char) :
    sentSplitGo prev fuel text ≠ [] := by
  cases fuel with
  | zero => simp [sentSplitGo]
  | succ n =>
      cases text with
      | nil => simp [sentSplitGo]
      | cons c rest =>
          rw [sentSplitGo]
          split
          · simp
          · split <;> simp

theorem mdSplitGo_ne_nil (fuel : Nat) (text : List Char) :
    mdSplitGo fuel text ≠ [] := by
  cases fuel with
  | zero => simp [mdSplitGo]
  | succ n =>
      cases text with
      | nil => simp [mdSplitGo]
      | cons c rest =>
          rw [mdSplitGo]
          split
          · simp
          · split <;> simp

theorem groupSections_ne_nil (l : List (List Char)) (h : l ≠ []) :
    groupSections l ≠ [] := by
  cases l with
  | nil => exact absurd rfl h
  | cons s rest =>
      cases rest with
      | nil =>
          have hdef : groupSections [s] =
              if (tryHeader s).isSome ∧ ([] : List (List Char)) ≠ [] then [s]
              else s :: groupSections [] := rfl
          rw [hdef]
          split <;> simp
      | cons t rest2 =>
          have hdef : groupSections (s :: t :: rest2) =
              if (tryHeader s).isSome ∧ (t :: rest2) ≠ [] then
                (s ++ t) :: groupSections rest2
              else s :: groupSections (t :: rest2) := rfl
          rw [hdef]
          split <;> simp

theorem chunkText_ne_nil (text : List Char) (cs co : Nat)
    (strategy contentType : String) (h : text ≠ []) :
    chunkText text cs co strategy contentType ≠ [] := by
  rw [chunkText, if_neg h]
  have hsen : chunkBySentence text cs co ≠ [] :=
    itemsPackGo_ne_nil _ _ _ _ _ _ _
      (Or.inr (Or.inr (sentSplitGo_ne_nil _ _ _)))
  have hmd : chunkMarkdown text cs co ≠ [] :=
    itemsPackGo_ne_nil _ _ _ _ _ _ _
      (Or.inr (Or.inr (groupSections_ne_nil _ (mdSplitGo_ne_nil _ _))))
  have hsep : ∀ s, chunkBySeparator text cs co s ≠ [] :=
    fun s => chunkBySeparator_ne_nil text cs co s
  dsimp only
  repeat' split
  all_goals first
    | exact hsep _
    | exact hsen
    | exact hmd

/-- Claim C6 counterexample: `chunk_text` called with
`chunk_overlap = 5 ≥ 3 = chunk_size` does not fail — the source contains
no parameter validation and no error channel at all — and returns an
ordinary chunk list (whose second chunk even shows the uncorrected
oversized overlap being carried over in full). -/
theorem C6_no_validation_counterexample :
    chunkText "ab\ncd".toList 3 5 "simple" "text" =
      ["ab".toList, "ab\ncd".toList] := by decide

/-- Claim C6 as amended: the chunker performs no validation of
`chunk_size`/`chunk_overlap`; a call with `chunk_overlap ≥ chunk_size`
is accepted as-is and still returns a chunk list (nonempty whenever the
input text is nonempty), computed with the uncorrected parameters. -/
theorem C6_overlap_ge_size_accepted (text : List Char) (cs co : Nat)
    (strategy contentType : String) (hco : cs ≤ co) (ht : text ≠ []) :
    chunkText text cs co strategy contentType ≠ [] :=
  chunkText_ne_nil text cs co strategy contentType ht

/-- Witness for the amended C6 at a concrete input with overlap 5 ≥ size 3. -/
theorem C6_overlap_ge_size_accepted_witness :
    chunkText "ab\ncd".toList 3 5 "paragraph" "text" ≠ [] :=
  C6_overlap_ge_size_accepted "ab\ncd".toList 3 5 "paragraph" "text"
    (by norm_num) (by decide)

/-- Claim C7 counterexample: with the simple strategy,
`chunk_size = 5`, `chunk_overlap = 1`, and a text whose first line has 10
characters, the oversized line is emitted as a single 10-character chunk;
no per-unit character slicing happens. -/
theorem C7_oversized_unit_counterexample :
    chunkText "aaaaaaaaaa\nb".toList 5 1 "simple" "text" =
      ["aaaaaaaaaa".toList, "b".toList] ∧
    5 < "aaaaaaaaaa".toList.length := by decide

/-- Claim C7 as amended: `chunk_by_separator` falls back to fixed-width
character slicing only when the whole text contains no occurrence of the
separator (a single split); when the separator does occur, units are
packed whole, and in particular a unit exceeding `chunk_size` on its own
is emitted as one oversized chunk rather than sliced (shown here for a
two-unit text whose first unit exceeds both `chunk_size` and
`chunk_overlap`). -/
theorem C7_fallback_only_for_whole_text :
    (∀ (text : List Char) (cs co : Nat) (sep : List Char),
        (splitOnSep sep text).length = 1 →
        chunkBySeparator text cs co sep = chunkByCharacter text cs co) ∧
    (∀ (text : List Char) (cs co : Nat) (sep u v : List Char),
        splitOnSep sep text = [u, v] →
        cs < u.length + sep.length →
        co < u.length + sep.length →
        chunkBySeparator text cs co sep = [u, v]) := by
  constructor
  · intro text cs co sep h
    rw [chunkBySeparator]
    simp only [h, if_pos]
  · intro text cs co sep u v h hcs hco
    rw [chunkBySeparator]
    rw [h]
    rw [if_neg (by norm_num)]
    rw [sepPackGo, if_neg (by simp)]
    rw [sepPackGo, if_pos (by constructor <;> [omega; simp])]
    rw [sepPackGo, if_pos (by simp)]
    simp only [List.reverse_cons, List.reverse_nil, List.nil_append,
      overlapGo, List.intercalate]
    rw [if_neg (by omega)]
    simp [List.intercalate]

/-- Witness for the amended C7: the no-separator fallback at a concrete
separator-free text, and the oversized-unit behaviour at the concrete
text used in the counterexample. -/
theorem C7_fallback_only_for_whole_text_witness :
    chunkBySeparator "abc".toList 2 1 ['\n'] =
      chunkByCharacter "abc".toList 2 1 ∧
    chunkBySeparator "aaaaaaaaaa\nb".toList 5 1 ['\n'] =
      ["aaaaaaaaaa".toList, "b".toList] :=
  ⟨C7_fallback_only_for_whole_text.1 "abc".toList 2 1 ['\n'] (by decide),
   C7_fallback_only_for_whole_text.2 "aaaaaaaaaa\nb".toList 5 1 ['\n']
     "aaaaaaaaaa".toList "b".toList (by decide) (by decide) (by decide)⟩

theorem toBatchesGo_cons_succ {α : Type} (n fuel : Nat) (x : α)
    (xs : List α) :
    toBatchesGo n (fuel + 1) (x :: xs) =
      (x :: xs).take n :: toBatchesGo n fuel ((x :: xs).drop n) := rfl

theorem insertChunkBatches_fail (b : Backend) (db : DB)
    (batch : List ChunkRec) (rest : List (List ChunkRec))
    (stored : List ChunkRec) (h : b.chunkInsertOk = false) :
    insertChunkBatches b db (batch :: rest) stored =
      (.error "Error storing document chunks", db) := by
  simp [insertChunkBatches, h]

theorem storeDocumentChunks_forced_failure (b : Backend) (db : DB)
    (documentId : String) (chunks : List String)
    (embeddings : List (List Int))
    (cml : Option (List (List (String × String))))
    (hFail : b.chunkInsertOk = false) (hne : chunks ≠ []) :
    ∃ e, storeDocumentChunks b db documentId chunks embeddings cml =
      (.error e, db) := by
  rw [storeDocumentChunks]
  split
  · exact ⟨_, rfl⟩
  · dsimp only
    split
    · exact ⟨_, rfl⟩
    · have hrec : buildChunkRecords documentId chunks embeddings
          (mlIsTruthy cml) (cml.getD []) ≠ [] := by
        rw [buildChunkRecords]
        cases chunks with
        | nil => exact absurd rfl hne
        | cons c cs => simp [List.range_succ_eq_map]
      rcases hb : buildChunkRecords documentId chunks embeddings
          (mlIsTruthy cml) (cml.getD []) with _ | ⟨r, rs⟩
      · exact absurd hb hrec
      · rw [toBatches, toBatchesGo_cons_succ,
          insertChunkBatches_fail _ _ _ _ _ hFail]
        exact ⟨_, rfl⟩

theorem getDocument_after_id_filter (docs : List Doc)
    (chunks : List ChunkRec) (docId : String) :
    getDocument ⟨docs.filter (fun d => d.id ≠ docId), chunks⟩ docId =
      none := by
  rw [getDocument, List.find?_eq_none]
  intro d hd
  have := List.of_mem_filter hd
  simpa using this

/-- Claim C2: when the document insert succeeds, the chunk store is
forced to fail (backend chunk inserts failing, at least one chunk) and
the backend delete works, `store_document_with_chunks` surfaces an error
and the just-inserted document no longer exists afterwards — the
compensating delete ran. -/
theorem C2_compensating_delete (b : Backend) (db : DB)
    (title content : String) (chunks : List String)
    (embeddings : List (List Int)) (metadata : List (String × String))
    (cml : Option (List (List (String × String)))) (docId : String)
    (hIns : b.docInsertOk = true)
    (hFresh : getDocument db docId = none)
    (hDel : b.docDeleteOk = true)
    (hChunkFail : b.chunkInsertOk = false)
    (hne : chunks ≠ []) :
    (∃ e, (storeDocumentWithChunks b db title content chunks embeddings
        metadata cml docId).1 = .error e) ∧
    getDocument (storeDocumentWithChunks b db title content chunks
        embeddings metadata cml docId).2 docId = none := by
  have hsd : storeDocument b db title content metadata docId =
      (.ok ⟨docId, title, content, metadata, 1⟩,
        ⟨db.docs ++ [⟨docId, title, content, metadata, 1⟩],
          db.chunks⟩) := by
    simp [storeDocument, hIns, hFresh]
  obtain ⟨e, hsc⟩ := storeDocumentChunks_forced_failure b
    ⟨db.docs ++ [⟨docId, title, content, metadata, 1⟩], db.chunks⟩
    docId chunks embeddings cml hChunkFail hne
  have hdd : ∀ db2 : DB, (deleteDocument b db2 docId false).2 =
      ⟨db2.docs.filter (fun d => d.id ≠ docId), db2.chunks⟩ := by
    intro db2
    simp [deleteDocument, hDel]
  rw [storeDocumentWithChunks, hsd]
  dsimp only
  rw [hsc]
  dsimp only
  rw [hdd]
  refine ⟨⟨_, rfl⟩, ?_⟩
  exact getDocument_after_id_filter _ _ docId

/-- Witness for C2: a fresh store, one chunk, backend chunk inserts
failing — the operation errors and the document is gone. -/
theorem C2_compensating_delete_witness :
    (∃ e, (storeDocumentWithChunks ⟨true, false, true, true, true⟩
        ⟨[], []⟩ "t" "c" ["hello"] [[1]] [] none "doc1").1 = .error e) ∧
    getDocument (storeDocumentWithChunks ⟨true, false, true, true, true⟩
        ⟨[], []⟩ "t" "c" ["hello"] [[1]] [] none "doc1").2 "doc1" =
      none :=
  C2_compensating_delete ⟨true, false, true, true, true⟩ ⟨[], []⟩
    "t" "c" ["hello"] [[1]] [] none "doc1" rfl rfl rfl rfl (by decide)

theorem getDocument_after_update (docs : List Doc)
    (chunks : List ChunkRec) (docId : String) (updated : Doc)
    (hid : updated.id = docId)
    (hex : (docs.find? (fun d => d.id = docId)).isSome) :
    getDocument
      ⟨docs.map (fun d => if d.id = docId then updated else d), chunks⟩
      docId = some updated := by
  induction docs with
  | nil => simp at hex
  | cons d rest ih =>
      by_cases h : d.id = docId
      · simp [getDocument, List.find?, h, hid]
      · rw [getDocument] at ih ⊢
        simp only [List.map_cons, if_neg h, List.find?] at *
        simp only [h, decide_False] at *
        exact ih (by simpa [List.find?, h] using hex)

/-- Claim C10: updating an existing document with no new title, content
or metadata still executes the backend update statement (because
`update_data` always contains the incremented version) and bumps the
version by exactly 1, both in the returned record and in the store. -/
theorem C10_empty_update_bumps_version (b : Backend) (db : DB)
    (docId : String) (d : Doc)
    (hGet : getDocument db docId = some d)
    (hUpd : b.docUpdateOk = true) :
    (updateDocument b db docId none none none).2.2 = true ∧
    (updateDocument b db docId none none none).1 =
      .ok ⟨d.id, d.title, d.content, d.metadata, d.version + 1⟩ ∧
    getDocument (updateDocument b db docId none none none).2.1 docId =
      some ⟨d.id, d.title, d.content, d.metadata, d.version + 1⟩ := by
  have hGetF : db.docs.find? (fun x => x.id = docId) = some d := by
    rw [getDocument] at hGet
    exact hGet
  have hid : d.id = docId := by
    have := List.find?_some hGetF
    simpa using this
  rw [updateDocument, hGet]
  dsimp only [Option.getD]
  rw [if_pos hUpd]
  refine ⟨rfl, rfl, ?_⟩
  exact getDocument_after_update db.docs db.chunks docId _ hid
    (by rw [hGetF]; rfl)

/-- Witness for C10 at a concrete one-document store. -/
theorem C10_empty_update_bumps_version_witness :
    (updateDocument ⟨true, true, true, true, true⟩
        ⟨[⟨"d1", "T", "C", [("k", "v")], 4⟩], []⟩ "d1"
        none none none).2.2 = true ∧
    (updateDocument ⟨true, true, true, true, true⟩
        ⟨[⟨"d1", "T", "C", [("k", "v")], 4⟩], []⟩ "d1"
        none none none).1 = .ok ⟨"d1", "T", "C", [("k", "v")], 5⟩ ∧
    getDocument (updateDocument ⟨true, true, true, true, true⟩
        ⟨[⟨"d1", "T", "C", [("k", "v")], 4⟩], []⟩ "d1"
        none none none).2.1 "d1" =
      some ⟨"d1", "T", "C", [("k", "v")], 5⟩ :=
  C10_empty_update_bumps_version ⟨true, true, true, true, true⟩
    ⟨[⟨"d1", "T", "C", [("k", "v")], 4⟩], []⟩ "d1"
    ⟨"d1", "T", "C", [("k", "v")], 4⟩ (by decide) rfl

/-- Claim C5 counterexample: both failure modes are converted into an
empty success result. With the query embedding failing (matches exist at
the backend) and, separately, with the similarity-search RPC failing,
`SearchService.search` returns `[]` instead of surfacing an error:
`search_documents` (document_storage.py lines 477-490) swallows RPC
errors into `[]`, and the `try`/`except` of `SearchService.search`
(lines 85-87) swallows everything else. -/
theorem C5_error_swallowed_counterexample :
    searchService sbEmbedFail "how do I reset" (some 5) false none = [] ∧
    searchService sbRpcFail "how do I reset" (some 5) false none = [] ∧
    sbEmbedFail.embedQuery = .error "embedding failed" ∧
    sbRpcFail.rpcResult = .error "search failed" :=
  ⟨rfl, rfl, rfl, rfl⟩

/-- Claim C5 as amended: when embedding the query or the backend
similarity search fails, `SearchService.search` logs the failure and
returns an empty result list — the error is converted into an empty
success result, not surfaced to the caller. -/
theorem C5_failures_become_empty (b : SearchBackend) (query : String)
    (limit : Option Nat) (ic : Bool)
    (mf : Option (List (String × String)))
    (h : (∃ e, b.embedQuery = .error e) ∨
      (∃ e, b.rpcResult = .error e)) :
    searchService b query limit ic mf = [] := by
  rcases h with ⟨e, he⟩ | ⟨e, he⟩
  · simp [searchService, he]
  · rcases hq : b.embedQuery with e2 | v
    · simp [searchService, hq]
    · rcases mf with _ | mfl <;>
        simp [searchService, hq, searchDocumentsGW, he, enhanceResults]

/-- Witness for the amended C5 at the concrete failing-RPC backend. -/
theorem C5_failures_become_empty_witness :
    searchService sbRpcFail "q" none true
      (some [("category", "manual")]) = [] :=
  C5_failures_become_empty sbRpcFail "q" none true
    (some [("category", "manual")]) (Or.inr ⟨"search failed", rfl⟩)

theorem mem_aset {α β : Type} [DecidableEq α] (m : List (α × β)) (k : α)
    (v : β) (p : α × β) (h : p ∈ aset m k v) : p = (k, v) ∨ p ∈ m := by
  induction m with
  | nil => simpa [aset] using h
  | cons q rest ih =>
      rw [aset] at h
      by_cases hk : q.1 = k
      · rcases q with ⟨qk, qv⟩
        simp only at hk
        rw [if_pos hk] at h
        rcases List.mem_cons.mp h with h | h
        · exact Or.inl h
        · exact Or.inr (List.mem_cons_of_mem _ h)
      · rcases q with ⟨qk, qv⟩
        simp only at hk
        rw [if_neg hk] at h
        rcases List.mem_cons.mp h with h | h
        · exact Or.inr (h ▸ List.mem_cons_self _ _)
        · rcases ih h with h | h
          · exact Or.inl h
          · exact Or.inr (List.mem_cons_of_mem _ h)

theorem alookup_mem {α β : Type} [DecidableEq α] (m : List (α × β))
    (k : α) (v : β) (h : alookup m k = some v) : (k, v) ∈ m := by
  induction m with
  | nil => simp [alookup] at h
  | cons q rest ih =>
      rcases q with ⟨qk, qv⟩
      rw [alookup] at h
      by_cases hk : qk = k
      · rw [if_pos hk] at h
        injection h with h
        subst hk
        subst h
        exact List.mem_cons_self _ _
      · rw [if_neg hk] at h
        exact List.mem_cons_of_mem _ (ih h)

theorem mem_insertDesc (key : SResult → Int) (x a : SResult)
    (l : List SResult) (h : a ∈ insertDesc key x l) : a = x ∨ a ∈ l := by
  induction l with
  | nil => simpa [insertDesc] using h
  | cons y ys ih =>
      rw [insertDesc] at h
      split at h
      · rcases List.mem_cons.mp h with h | h
        · exact Or.inl h
        · exact Or.inr h
      · rcases List.mem_cons.mp h with h | h
        · exact Or.inr (h ▸ List.mem_cons_self _ _)
        · rcases ih h with h | h
          · exact Or.inl h
          · exact Or.inr (List.mem_cons_of_mem _ h)

theorem mem_foldl_insertDesc (key : SResult → Int) (l : List SResult)
    (acc : List SResult) (a : SResult)
    (h : a ∈ l.foldl (fun acc x => insertDesc key x acc) acc) :
    a ∈ acc ∨ a ∈ l := by
  induction l generalizing acc with
  | nil => exact Or.inl h
  | cons x xs ih =>
      rcases ih _ h with h | h
      · rcases mem_insertDesc key x a acc h with h | h
        · exact Or.inr (h ▸ List.mem_cons_self _ _)
        · exact Or.inl h
      · exact Or.inr (List.mem_cons_of_mem _ h)

theorem mem_sortDescStable (key : SResult → Int) (l : List SResult)
    (a : SResult) (h : a ∈ sortDescStable key l) : a ∈ l := by
  rcases mem_foldl_insertDesc key l [] a h with h | h
  · simp at h
  · exact h

theorem groupByDoc_mem (l : List SResult)
    (acc : List (String × List (Nat × SResult)))
    (g : String × List (Nat × SResult)) (p : Nat × SResult)
    (hg : g ∈ groupByDoc l acc) (hp : p ∈ g.2) :
    p.2 ∈ l ∨ ∃ g2 ∈ acc, p ∈ g2.2 := by
  induction l generalizing acc with
  | nil => exact Or.inr ⟨g, hg, hp⟩
  | cons r rest ih =>
      rw [groupByDoc] at hg
      split at hg
      · rcases ih _ hg with h | h
        · exact Or.inl (List.mem_cons_of_mem _ h)
        · exact Or.inr h
      · rcases ih _ hg with h | ⟨g2, hg2, hpg2⟩
        · exact Or.inl (List.mem_cons_of_mem _ h)
        · rcases mem_aset _ _ _ _ hg2 with h2 | h2
          · subst h2
            simp only at hpg2
            rcases mem_aset _ _ _ _ hpg2 with h3 | h3
            · exact Or.inl (h3 ▸ List.mem_cons_self _ _)
            · rcases halk : alookup acc r.document_id with _ | inner
              · rw [halk] at h3
                simp at h3
              · rw [halk] at h3
                exact Or.inr ⟨(r.document_id, inner),
                  alookup_mem _ _ _ halk, h3⟩
          · exact Or.inr ⟨g2, h2, hpg2⟩

theorem mem_ite_singleton {c : Prop} [Decidable c] (t a : SResult)
    (h : a ∈ if c then [t] else ([] : List SResult)) : a = t := by
  split at h
  · exact List.mem_singleton.mp h
  · simp at h

theorem contextFor_mem (chunkMap chunksMap : List (Nat × SResult))
    (p : Nat × SResult) (a : SResult)
    (ha : a ∈ contextFor chunkMap chunksMap p)
    (hctx : a.is_context = false) : a = p.2 := by
  rw [contextFor] at ha
  rcases List.mem_cons.mp ha with h | h
  · exact h
  · exfalso
    rcases List.mem_append.mp h with h | h
    · rcases hm : alookup chunkMap (p.1 - 1) with _ | pc <;> rw [hm] at h
      · simp at h
      · have h2 := mem_ite_singleton (tagContext pc p.1 "before") a h
        subst h2
        simp [tagContext] at hctx
    · rcases hm : alookup chunkMap (p.1 + 1) with _ | nc <;> rw [hm] at h
      · simp at h
      · have h2 := mem_ite_singleton (tagContext nc p.1 "after") a h
        subst h2
        simp [tagContext] at hctx

theorem addContext_mem (b : SearchBackend) (results : List SResult)
    (lim : Nat) (a : SResult) (ha : a ∈ addContext b results lim)
    (hctx : a.is_context = false) : a ∈ results := by
  rw [addContext] at ha
  split at ha
  · simp at ha
  · have h1 := List.take_subset lim _ ha
    have h2 := mem_sortDescStable _ _ _ h1
    rcases List.mem_flatMap.mp h2 with ⟨g, hg, hag⟩
    rcases List.mem_flatMap.mp hag with ⟨p, hpg, hap⟩
    have hap2 := contextFor_mem _ _ _ _ hap hctx
    subst hap2
    rcases groupByDoc_mem results [] g p hg hpg with h | ⟨g2, hg2, _⟩
    · exact h
    · simp at hg2

theorem enhanceOne_metadata (b : SearchBackend) (r : SResult) :
    (enhanceOne b r).metadata = r.metadata := by
  rw [enhanceOne]
  cases b.getDoc r.document_id <;> rfl

theorem enhanceOne_is_context (b : SearchBackend) (r : SResult) :
    (enhanceOne b r).is_context = r.is_context := by
  rw [enhanceOne]
  cases b.getDoc r.document_id <;> rfl

/-- Claim C9 counterexample: searching with
`metadata_filter = {category: manual}` and `include_context = true`
against a document whose chunk 0 is tagged `faq` returns, alongside the
matching `manual` chunk, that `faq`-tagged chunk as context — the
metadata filter runs before context expansion and context chunks are
never checked against it. -/
theorem C9_context_bypasses_filter_counterexample :
    (searchService sb9 "q" (some 5) true
        (some [("category", "manual")])).map
      (fun r => (alookup r.metadata "category", r.is_context)) =
      [(some "manual", false), (some "faq", true),
        (some "manual", true)] := by decide

/-- Claim C9 as amended: every primary (non-context) result of a search
with a nonempty `metadata_filter` carries every filter key with exactly
the filter's value; only the chunks added by context expansion (tagged
`is_context = true`) bypass the filter. -/
theorem C9_primary_results_respect_filter (b : SearchBackend)
    (query : String) (limit : Option Nat) (ic : Bool)
    (mf : List (String × String)) (r : SResult) (hmf : mf ≠ [])
    (hr : r ∈ searchService b query limit ic (some mf))
    (hctx : r.is_context = false) :
    matchesFilter r.metadata mf = true := by
  rw [searchService] at hr
  rcases hq : b.embedQuery with e | v
  · rw [hq] at hr
    simp at hr
  · rw [hq] at hr
    dsimp only [enhanceResults] at hr
    rcases List.mem_map.mp hr with ⟨r0, hr0, hre⟩
    have hmeta : r.metadata = r0.metadata := by
      rw [← hre, enhanceOne_metadata]
    have hic : r0.is_context = false := by
      rw [← hre, enhanceOne_is_context] at hctx
      exact hctx
    rw [hmeta]
    rcases hres : searchDocumentsGW b with _ | ⟨x, xs⟩
    · rw [hres] at hr0
      simp [addContext] at hr0
    · rw [hres] at hr0
      have hfilt : (if mf ≠ [] ∧ (x :: xs) ≠ [] then
          filterByMetadata (x :: xs) mf else (x :: xs)) =
          filterByMetadata (x :: xs) mf := if_pos ⟨hmf, by simp⟩
      rw [hfilt] at hr0
      split at hr0
      · have := addContext_mem _ _ _ _ hr0 hic
        exact (List.mem_filter.mp this).2
      · have := List.take_subset _ _ hr0
        exact (List.mem_filter.mp this).2

/-- Witness for the amended C9: the primary result returned by the
concrete search of the counterexample does match the `manual` filter. -/
theorem C9_primary_results_respect_filter_witness :
    matchesFilter (enhanceOne sb9 manualHit).metadata
      [("category", "manual")] = true :=
  C9_primary_results_respect_filter sb9 "q" (some 5) true
    [("category", "manual")] (enhanceOne sb9 manualHit) (by decide)
    (by decide) (by decide)

/-- Witness for C8 at the concrete clock values 0, 1, 2, 3, 60. -/
theorem C8_rate_limiter_boundary_witness :
    runRateLimiter 3 60 [] [] [0, 1, 2, 3, 60] =
      [true, true, true, false, true] :=
  C8_rate_limiter_boundary [] 0 1 2 3 60 (by norm_num) (by norm_num)
    (by norm_num) (by norm_num) (by norm_num) (by norm_num)

end SupportAgent
